import Mathlib

/-!
Shallow embedding of
`src/tensorflow-2/comet-tensorflow-distributed-multiworker-mirrored-strategy.py`.

The script parses three CLI flags, builds the TF_CONFIG cluster descriptor,
opens an experiment-tracking session on the coordinating worker, and runs a
fixed-epoch training loop that logs a per-epoch mean loss and prints a
per-epoch accuracy.  Behaviour supplied by the external framework (per-batch
losses, model logits, labels, the accuracy metric result) is passed in as
oracle parameters; everything the script itself computes is embedded from the
source.
-/

set_option autoImplicit false

/-- Module-level constant `PROJECT_NAME` (line 30 of the source). -/
def PROJECT_NAME : String := "tf-distributed-multiworker-mirrored"

/-- Module-level constant `EPOCHS` (line 45 of the source). -/
def EPOCHS : Nat := 10

/-- Parsed CLI arguments, as produced by `get_args` (lines 65-71): each flag
is optional in argparse, so an omitted flag parses to `None`. -/
structure Args where
  run_id : Option Int
  worker_hosts : Option String
  task_index : Option Int
deriving DecidableEq

/-- One hexadecimal digit, lowercase, as used by the JSON encoder of the
Python standard library for unicode escapes. -/
def hexDigit (n : Nat) : Char :=
  if n < 10 then Char.ofNat (48 + n) else Char.ofNat (97 + (n - 10))

/-- Four lowercase hexadecimal digits of `n % 65536`. -/
def hex4 (n : Nat) : String :=
  String.mk [hexDigit (n / 4096 % 16), hexDigit (n / 256 % 16),
             hexDigit (n / 16 % 16), hexDigit (n % 16)]

/-- Escaping of one character in a JSON string literal, as performed by
`json.dumps` with its default `ensure_ascii=True`: the two-character escapes
for quote, backslash and the usual control characters, `\uXXXX` for the other
control characters and all non-ASCII characters, surrogate pairs above the
basic multilingual plane, and the printable ASCII range passed through. -/
def jsonEscapeChar (c : Char) : String :=
  if c = '"' then ("\\\"")
  else if c = '\\' then ("\\\\")
  else if c.toNat = 8 then ("\\b")
  else if c.toNat = 9 then ("\\t")
  else if c.toNat = 10 then ("\\n")
  else if c.toNat = 12 then ("\\f")
  else if c.toNat = 13 then ("\\r")
  else if c.toNat < 32 then ("\\u") ++ hex4 c.toNat
  else if c.toNat ≤ 126 then String.singleton c
  else if c.toNat ≤ 65535 then ("\\u") ++ hex4 c.toNat
  else
    "\\u" ++ hex4 (55296 + (c.toNat - 65536) / 1024) ++
    "\\u" ++ hex4 (56320 + (c.toNat - 65536) % 1024)

/-- Serialization of a Python string by the JSON encoder: the escaped
characters between double quotes. -/
def jsonQuote (s : String) : String :=
  "\"" ++ String.join (s.data.map jsonEscapeChar) ++ "\""

/-- Serialization of a list of strings, with the default separator. -/
def dumpsStrList (l : List String) : String :=
  "[" ++ String.intercalate (", ") (l.map jsonQuote) ++ "]"

/-- Serialization of an optional integer: `null` for `None`, the decimal
representation otherwise. -/
def dumpsOptInt : Option Int → String
  | Option.none => "null"
  | Option.some i => toString i

/-- Output of `json.dumps(cluster_dict)` for the dictionary literal built on
lines 83-86 of the source: keys in insertion order, default separators. -/
def clusterDictDumps (worker_hosts : List String) (task_index : Option Int) : String :=
  "\x7b\"cluster\": \x7b\"worker\": " ++ dumpsStrList worker_hosts ++
  "\x7d, \"task\": \x7b\"type\": \"worker\", \"index\": " ++
  dumpsOptInt task_index ++ "\x7d\x7d"

/-- Python `str.split(",")` on the underlying character list: the maximal
runs of non-comma characters, so that the empty string yields `[[]]` and
every comma contributes one extra (possibly empty) group. -/
def splitOnComma : List Char → List (List Char)
  | [] => [[]]
  | c :: rest =>
    match splitOnComma rest with
    | [] => [[]]
    | g :: gs => if c = ',' then [] :: g :: gs else (c :: g) :: gs

/-- Python `s.split(",")` (line 80 of the source). -/
def pySplitComma (s : String) : List String :=
  (splitOnComma s.data).map (fun l => String.mk l)

/-- The module-level normalization (lines 40-41): one 8-bit pixel value is
divided by 255, in exact arithmetic. -/
def normalizePixel (v : Nat) : ℚ := (v : ℚ) / 255

/-- Elementwise normalization of an image tensor (flattened). -/
def normalizeImage (img : List Nat) : List ℚ := img.map normalizePixel

/-- A value handed to the experiment-tracking API. -/
inductive Val where
  | int (i : Int)
  | str (s : String)
  | pyNone
deriving DecidableEq

/-- Metadata value logged for the run-id field: the parsed integer, or
`None` when the flag was omitted. -/
def valOfOptInt : Option Int → Val
  | Option.none => Val.pyNone
  | Option.some i => Val.int i

/-- Observable events of one run: environment-variable writes, the
experiment-tracking calls, and the per-epoch accuracy print. -/
inductive Event where
  | envSet (name value : String)
  | expOpen (project : String)
  | logOther (key : String) (v : Val)
  | logMetric (name : String) (value : ℚ) (epoch : Nat)
  | printAcc (epoch : Nat) (acc : ℚ)
deriving DecidableEq

/-- An uncaught Python exception. -/
inductive PyErr where
  | attributeError (msg : String)
  | zeroDivisionError
deriving DecidableEq

/-- What the external framework reports for one batch of one epoch: the
labels of the batch, the per-example model logits, and the summed loss
returned by `step_fn`. -/
structure Batch where
  labels : List Int
  logits : List (List ℚ)
  loss : ℚ
deriving DecidableEq

/-- Line 119 of the source, for one example:
`tf.cast(tf.greater(pred, 0.5), tf.int64)` maps each logit to the indicator
of being strictly greater than one half. -/
def actualPredRow (row : List ℚ) : List Int :=
  row.map (fun x => if (1 : ℚ) / 2 < x then 1 else 0)

/-- Line 119 for a whole batch of per-example logit rows. -/
def actualPred (logits : List (List ℚ)) : List (List Int) :=
  logits.map actualPredRow

/-- One `update_state` call recorded by the accuracy metric: the labels and
the prediction tensor fed to it. -/
def AccUpd : Type := List Int × List (List Int)

instance : DecidableEq AccUpd := by
  unfold AccUpd
  infer_instance

/-- The accuracy-metric updates produced by one epoch: for each batch,
`train_accuracy.update_state(labels, actual_pred)` (line 120). -/
def epochUpds (bs : List Batch) : List AccUpd :=
  bs.map (fun b => (b.labels, actualPred b.logits))

/-- Accumulated `total_loss` over an epoch (lines 135-139): starts at `0`
and adds each batch loss in order. -/
def epochTotalLoss (bs : List Batch) : ℚ :=
  bs.foldl (fun acc b => acc + b.loss) 0

/-- The epoch loop of `main` (lines 134-147), over a list of epoch indices.
State: the list of updates accumulated by the accuracy metric since its last
reset.  Per epoch: run every batch (feeding the metric), then, on the
coordinator, log `train_loss` as total loss over batch count — a
`ZeroDivisionError` when the epoch had no batches — then print the metric
result and reset the metric.  Returns the emitted events and the uncaught
exception, if any. -/
def runEpochs (taskIndex : Option Int) (oracle : Nat → List Batch)
    (accResult : List AccUpd → ℚ) :
    List Nat → List AccUpd → List Event × Option PyErr
  | [], _ => ([], Option.none)
  | i :: rest, st =>
    let batches := oracle i
    let st2 := st ++ epochUpds batches
    if taskIndex = Option.some 0 then
      if batches.length = 0 then ([], Option.some PyErr.zeroDivisionError)
      else
        let res := runEpochs taskIndex oracle accResult rest []
        (Event.logMetric ("train_loss") (epochTotalLoss batches / (batches.length : ℚ)) i ::
           Event.printAcc i (accResult st2) :: res.1,
         res.2)
    else
      let res := runEpochs taskIndex oracle accResult rest []
      (Event.printAcc i (accResult st2) :: res.1, res.2)

/-- The body of `main` (lines 74-147).  Splitting the worker-hosts flag
raises an `AttributeError` when the flag was omitted (so the attribute
lookup `None.split` fails); otherwise the TF_CONFIG descriptor is written,
the tracking session is opened on task index 0 with its two metadata
fields, and the epoch loop runs. -/
def mainRun (args : Args) (oracle : Nat → List Batch)
    (accResult : List AccUpd → ℚ) : List Event × Option PyErr :=
  match args.worker_hosts with
  | Option.none =>
      ([], Option.some (PyErr.attributeError ("NoneType object has no attribute split")))
  | Option.some hostsStr =>
      let worker_hosts := pySplitComma hostsStr
      let pre :=
        Event.envSet ("TF_CONFIG") (clusterDictDumps worker_hosts args.task_index) ::
          (if args.task_index = Option.some 0 then
            [Event.expOpen PROJECT_NAME,
             Event.logOther ("run_id") (valOfOptInt args.run_id),
             Event.logOther ("worker_hosts") (Val.str hostsStr)]
          else [])
      let res := runEpochs args.task_index oracle accResult (List.range EPOCHS) []
      (pre ++ res.1, res.2)

/-- The whole process: the module-level `os.environ["GRPC_FAIL_FAST"]`
write (line 32) followed by `main`. -/
def runProgram (args : Args) (oracle : Nat → List Batch)
    (accResult : List AccUpd → ℚ) : List Event × Option PyErr :=
  let res := mainRun args oracle accResult
  (Event.envSet ("GRPC_FAIL_FAST") ("use_caller") :: res.1, res.2)

/-- A one-hot encoding of class `k` over the 10 classes: what feeding the
argmax class as a 0/1 vector would look like. -/
def oneHot (k : Nat) : List Int :=
  (List.range 10).map (fun j => if j = k then 1 else 0)

/-- The kinds of events the epoch loop can emit. -/
def Event.isLoopEvent : Event → Bool
  | Event.logMetric _ _ _ => true
  | Event.printAcc _ _ => true
  | _ => false

/-- Is the event the per-epoch accuracy print? -/
def Event.isEpochPrint : Event → Bool
  | Event.printAcc _ _ => true
  | _ => false

/-- Number of per-epoch accuracy prints in a trace, one per finished
epoch. -/
def countEpochPrints (tr : List Event) : Nat := tr.countP Event.isEpochPrint

/-- The events of one epoch body, as emitted when nothing raises: the
`train_loss` metric on the coordinator, then the accuracy print of the
updates made since the last reset (the metric having been reset at the end
of the previous epoch). -/
def epochEvts (t : Option Int) (o : Nat → List Batch)
    (a : List AccUpd → ℚ) (i : Nat) : List Event :=
  (if t = Option.some 0 then
    [Event.logMetric ("train_loss") (epochTotalLoss (o i) / ((o i).length : ℚ)) i]
  else []) ++ [Event.printAcc i (a (epochUpds (o i)))]

/-- The values written to the `TF_CONFIG` environment variable, in trace
order. -/
def tfConfigValues (tr : List Event) : List String :=
  tr.filterMap (fun e =>
    match e with
    | Event.envSet n v => if n = "TF_CONFIG" then Option.some v else Option.none
    | _ => Option.none)

/-- The metadata fields sent to the experiment-tracking session, in trace
order. -/
def logOthers (tr : List Event) : List (String × Val) :=
  tr.filterMap (fun e =>
    match e with
    | Event.logOther k v => Option.some (k, v)
    | _ => Option.none)

/-- The values of `train_loss` metrics logged with epoch tag `i`. -/
def trainLossAt (i : Nat) (e : Event) : Option ℚ :=
  match e with
  | Event.logMetric n v j =>
      if n = "train_loss" ∧ j = i then Option.some v else Option.none
  | _ => Option.none

/-- The accuracy values printed for epoch `i`. -/
def printAccAt (i : Nat) (e : Event) : Option ℚ :=
  match e with
  | Event.printAcc j q => if j = i then Option.some q else Option.none
  | _ => Option.none

/-- Keep every observable except the cluster descriptor write and the
experiment-tracking events. -/
def keepsNonExperiment : Event → Bool
  | Event.envSet n _ => n != "TF_CONFIG"
  | Event.printAcc _ _ => true
  | _ => false

/-- A trace restricted to the observables that are neither the cluster
descriptor nor experiment-tracking calls. -/
def residue (tr : List Event) : List Event := tr.filter keepsNonExperiment

/-- Keep every observable except the cluster-descriptor write itself. -/
def isNotTFConfigSet : Event → Bool
  | Event.envSet n _ => n != "TF_CONFIG"
  | _ => true

/-- A trace with only the cluster-descriptor write removed: all other
observable outputs. -/
def nonDescriptor (tr : List Event) : List Event := tr.filter isNotTFConfigSet

lemma splitOnComma_ne_nil : ∀ l : List Char, splitOnComma l ≠ []
  | [] => by simp [splitOnComma]
  | c :: rest => by
    have h := splitOnComma_ne_nil rest
    simp only [splitOnComma]
    match hr : splitOnComma rest with
    | [] => exact absurd hr h
    | g :: gs => by_cases hc : c = ',' <;> simp [hc]

lemma splitOnComma_length (l : List Char) :
    (splitOnComma l).length = l.count ',' + 1 := by
  induction l with
  | nil => simp [splitOnComma]
  | cons c rest ih =>
    have h := splitOnComma_ne_nil rest
    obtain ⟨g, gs, hr⟩ : ∃ g gs, splitOnComma rest = g :: gs := by
      cases hsp : splitOnComma rest with
      | nil => exact absurd hsp h
      | cons g gs => exact ⟨g, gs, rfl⟩
    rw [hr] at ih
    simp only [List.length_cons] at ih
    simp only [splitOnComma, hr]
    by_cases hc : c = ','
    · subst hc
      simp [List.count_cons_self]
      omega
    · rw [if_neg hc, List.count_cons_of_ne (Ne.symm hc)]
      simp only [List.length_cons]
      omega

/-- Claim C8: splitting any worker-hosts string on commas yields a list of
length one plus the number of commas — in particular always nonempty, so the
worker list in the cluster descriptor and the computed number of workers are
never empty/zero. -/
theorem split_comma_never_empty (s : String) :
    (pySplitComma s).length = s.data.count ',' + 1 ∧ pySplitComma s ≠ [] := by
  constructor
  · simp [pySplitComma, splitOnComma_length]
  · have h := splitOnComma_ne_nil s.data
    simp [pySplitComma]
    intro hcon
    exact h hcon

/-- Claim C6: the module-level normalization divides each 8-bit pixel value
by 255 in the unit interval: 0 maps to 0, 255 maps to 1, and every pixel of
a normalized image tensor whose raw values are 8-bit lies in `[0, 1]`. -/
theorem normalization_unit_interval :
    normalizePixel 0 = 0 ∧ normalizePixel 255 = 1 ∧
    (∀ img : List Nat, (∀ v ∈ img, v ≤ 255) →
      ∀ x ∈ normalizeImage img, 0 ≤ x ∧ x ≤ 1) := by
  refine ⟨by norm_num [normalizePixel], by norm_num [normalizePixel], ?_⟩
  intro img h x hx
  simp only [normalizeImage, List.mem_map] at hx
  obtain ⟨v, hv, rfl⟩ := hx
  have hv255 : (v : ℚ) ≤ 255 := by exact_mod_cast h v hv
  constructor
  · unfold normalizePixel
    positivity
  · unfold normalizePixel
    rw [div_le_one (by norm_num)]
    exact hv255

theorem normalization_unit_interval_witness :
    0 ≤ normalizePixel 128 ∧ normalizePixel 128 ≤ 1 :=
  normalization_unit_interval.2.2 [0, 128, 255] (by decide)
    (normalizePixel 128)
    (List.mem_map_of_mem normalizePixel (by decide))

/-- Claim C10: the prediction fed to the accuracy metric is the elementwise
indicator of each raw logit exceeding one half, cast to an integer — and on
a concrete logit row with two logits above one half it is a 0/1 vector with
two ones, which is not the one-hot encoding of any class (in particular not
of the argmax class). -/
theorem accuracy_pred_indicator :
    (∀ bs : List Batch, epochUpds bs =
      bs.map (fun b => (b.labels, b.logits.map (fun row =>
        row.map (fun x => if (1 : ℚ) / 2 < x then (1 : Int) else 0))))) ∧
    actualPredRow [(6 : ℚ)/10, 7/10, 0, 0, 0, 0, 0, 0, 0, 0] =
      [1, 1, 0, 0, 0, 0, 0, 0, 0, 0] ∧
    (∀ k : Nat,
      actualPredRow [(6 : ℚ)/10, 7/10, 0, 0, 0, 0, 0, 0, 0, 0] ≠ oneHot k) := by
  have hrow : actualPredRow [(6 : ℚ)/10, 7/10, 0, 0, 0, 0, 0, 0, 0, 0] =
      [1, 1, 0, 0, 0, 0, 0, 0, 0, 0] := by
    norm_num [actualPredRow]
  refine ⟨fun bs => rfl, hrow, ?_⟩
  intro k h
  rw [hrow] at h
  have h2 : ((oneHot k).count (1 : Int)) = 2 := by
    rw [← h]; decide
  by_cases hk : k < 10
  · interval_cases k <;> exact absurd h2 (by decide)
  · have hnot : (1 : Int) ∉ oneHot k := by
      intro hm
      simp only [oneHot, List.mem_map, List.mem_range] at hm
      obtain ⟨j, hj, hval⟩ := hm
      by_cases hjk : j = k
      · omega
      · simp [hjk] at hval
    rw [List.count_eq_zero.mpr hnot] at h2
    exact absurd h2 (by decide)

/-- Claim C5: there is no exception handler: when the worker-hosts flag was
omitted, the attribute lookup for `split` on `None` raises and the error
propagates out of `main` with no events emitted. -/
theorem none_hosts_uncaught (args : Args) (oracle : Nat → List Batch)
    (accResult : List AccUpd → ℚ) (h : args.worker_hosts = Option.none) :
    mainRun args oracle accResult =
      ([], Option.some (PyErr.attributeError ("NoneType object has no attribute split"))) := by
  unfold mainRun
  rw [h]

theorem none_hosts_uncaught_witness :
    mainRun ⟨Option.some 1, Option.none, Option.some 0⟩ (fun _ => []) (fun _ => 0) =
      ([], Option.some (PyErr.attributeError ("NoneType object has no attribute split"))) :=
  none_hosts_uncaught _ _ _ rfl

lemma runEpochs_loopish (t : Option Int) (o : Nat → List Batch)
    (a : List AccUpd → ℚ) :
    ∀ (l : List Nat) (st : List AccUpd) (e : Event),
      e ∈ (runEpochs t o a l st).1 → e.isLoopEvent = true := by
  intro l
  induction l with
  | nil => intro st e he; simp [runEpochs] at he
  | cons i rest ih =>
    intro st e he
    simp only [runEpochs] at he
    by_cases ht : t = Option.some 0
    · rw [if_pos ht] at he
      by_cases hb : (o i).length = 0
      · rw [if_pos hb] at he
        simp at he
      · rw [if_neg hb] at he
        simp only [List.mem_cons] at he
        rcases he with rfl | rfl | he
        · rfl
        · rfl
        · exact ih [] e he
    · rw [if_neg ht] at he
      simp only [List.mem_cons] at he
      rcases he with rfl | he
      · rfl
      · exact ih [] e he

lemma runEpochs_ok_trace (t : Option Int) (o : Nat → List Batch)
    (a : List AccUpd → ℚ) :
    ∀ l : List Nat, (runEpochs t o a l []).2 = Option.none →
      (runEpochs t o a l []).1 = (l.map (epochEvts t o a)).flatten := by
  intro l
  induction l with
  | nil => intro _; simp [runEpochs]
  | cons i rest ih =>
    intro hok
    by_cases ht : t = Option.some 0
    · by_cases hb : (o i).length = 0
      · exfalso
        simp only [runEpochs, if_pos ht, if_pos hb] at hok
        simp at hok
      · simp only [runEpochs, if_pos ht, if_neg hb] at hok ⊢
        simp only [List.map_cons, List.flatten_cons, epochEvts, if_pos ht]
        simp [ih hok]
    · simp only [runEpochs, if_neg ht] at hok ⊢
      simp only [List.map_cons, List.flatten_cons, epochEvts, if_neg ht]
      simp [ih hok]

lemma runEpochs_ok_of_safe (t : Option Int) (o : Nat → List Batch)
    (a : List AccUpd → ℚ) :
    ∀ l : List Nat, (t ≠ Option.some 0 ∨ ∀ i ∈ l, o i ≠ []) →
      (runEpochs t o a l []).2 = Option.none := by
  intro l
  induction l with
  | nil => intro _; simp [runEpochs]
  | cons i rest ih =>
    intro h
    by_cases ht : t = Option.some 0
    · have hne : ∀ j ∈ i :: rest, o j ≠ [] := by
        rcases h with h | h
        · exact absurd ht h
        · exact h
      have hb : ¬((o i).length = 0) := by
        have := hne i (List.mem_cons_self i rest)
        simpa [List.length_eq_zero] using this
      simp only [runEpochs, if_pos ht, if_neg hb]
      exact ih (Or.inr (fun j hj => hne j (List.mem_cons_of_mem _ hj)))
    · simp only [runEpochs, if_neg ht]
      exact ih (Or.inl ht)

lemma countEpochPrints_runEpochs (t : Option Int) (o : Nat → List Batch)
    (a : List AccUpd → ℚ) :
    ∀ (l : List Nat) (st : List AccUpd),
      (runEpochs t o a l st).2 = Option.none →
      countEpochPrints (runEpochs t o a l st).1 = l.length := by
  intro l
  induction l with
  | nil => intro st _; simp [runEpochs, countEpochPrints]
  | cons i rest ih =>
    intro st hok
    by_cases ht : t = Option.some 0
    · by_cases hb : (o i).length = 0
      · exfalso
        simp only [runEpochs, if_pos ht, if_pos hb] at hok
        simp at hok
      · simp only [runEpochs, if_pos ht, if_neg hb] at hok ⊢
        simp only [countEpochPrints, List.countP_cons, Event.isEpochPrint]
        have := ih [] hok
        simp only [countEpochPrints] at this
        simp [this]
    · simp only [runEpochs, if_neg ht] at hok ⊢
      simp only [countEpochPrints, List.countP_cons, Event.isEpochPrint]
      have := ih [] hok
      simp only [countEpochPrints] at this
      simp [this]

lemma flatten_map_eq_nil_of_not_mem {α : Type} (g : Nat → List α) (i : Nat) :
    ∀ l : List Nat, i ∉ l →
      ((l.map (fun j => if j = i then g j else [])).flatten) = [] := by
  intro l
  induction l with
  | nil => intro _; simp
  | cons j rest ih =>
    intro hni
    simp only [List.mem_cons, not_or] at hni
    simp only [List.map_cons, List.flatten_cons]
    rw [if_neg (fun h => hni.1 (h.symm)), List.nil_append]
    exact ih hni.2

lemma flatten_map_range_ite {α : Type} (g : Nat → List α) (i : Nat) :
    ∀ n : Nat, i < n →
      (((List.range n).map (fun j => if j = i then g j else [])).flatten) = g i := by
  intro n
  induction n with
  | zero => intro h; omega
  | succ n ih =>
    intro h
    rw [List.range_succ, List.map_append, List.flatten_append]
    by_cases hin : i < n
    · rw [ih hin]
      simp [if_neg (by omega : ¬(n = i))]
    · have hi : i = n := by omega
      subst hi
      rw [flatten_map_eq_nil_of_not_mem g i (List.range i) (by simp [List.mem_range])]
      simp

lemma epochTotalLoss_eq_sum (bs : List Batch) :
    epochTotalLoss bs = (bs.map Batch.loss).sum := by
  have key : ∀ (l : List Batch) (c : ℚ),
      l.foldl (fun acc b => acc + b.loss) c = c + (l.map Batch.loss).sum := by
    intro l
    induction l with
    | nil => intro c; simp
    | cons b rest ih =>
      intro c
      simp only [List.foldl_cons, List.map_cons, List.sum_cons, ih]
      ring
  simpa [epochTotalLoss] using key bs 0

lemma tfConfigValues_runEpochs (t : Option Int) (o : Nat → List Batch)
    (a : List AccUpd → ℚ) (l : List Nat) (st : List AccUpd) :
    tfConfigValues (runEpochs t o a l st).1 = [] := by
  unfold tfConfigValues
  apply List.filterMap_eq_nil_iff.mpr
  intro e he
  have hl := runEpochs_loopish t o a l st e he
  cases e with
  | logMetric n v i => rfl
  | printAcc i q => rfl
  | envSet n v => simp [Event.isLoopEvent] at hl
  | expOpen p => simp [Event.isLoopEvent] at hl
  | logOther k v => simp [Event.isLoopEvent] at hl

lemma logOthers_runEpochs (t : Option Int) (o : Nat → List Batch)
    (a : List AccUpd → ℚ) (l : List Nat) (st : List AccUpd) :
    logOthers (runEpochs t o a l st).1 = [] := by
  unfold logOthers
  apply List.filterMap_eq_nil_iff.mpr
  intro e he
  have hl := runEpochs_loopish t o a l st e he
  cases e with
  | logMetric n v i => rfl
  | printAcc i q => rfl
  | envSet n v => simp [Event.isLoopEvent] at hl
  | expOpen p => simp [Event.isLoopEvent] at hl
  | logOther k v => simp [Event.isLoopEvent] at hl

lemma expOpen_not_mem_runEpochs (p : String) (t : Option Int)
    (o : Nat → List Batch) (a : List AccUpd → ℚ) (l : List Nat)
    (st : List AccUpd) :
    Event.expOpen p ∉ (runEpochs t o a l st).1 := by
  intro hm
  have := runEpochs_loopish t o a l st _ hm
  simp [Event.isLoopEvent] at this

/-- Claim C1: for every parsed worker-hosts string and task index, `main`
sets `TF_CONFIG` exactly once, to the JSON serialization of the cluster
dictionary whose worker list is the comma-split of the hosts string and
whose task entry carries type worker and the parsed index. -/
theorem tf_config_exact (args : Args) (hostsStr : String)
    (oracle : Nat → List Batch) (accResult : List AccUpd → ℚ)
    (h : args.worker_hosts = Option.some hostsStr) :
    tfConfigValues (mainRun args oracle accResult).1 =
      [clusterDictDumps (pySplitComma hostsStr) args.task_index] := by
  have hloop := tfConfigValues_runEpochs args.task_index oracle accResult (List.range EPOCHS) []
  simp only [tfConfigValues] at hloop
  simp only [mainRun, h]
  by_cases ht : args.task_index = Option.some 0
  · rw [ht] at hloop
    simp [ht, tfConfigValues, List.filterMap_append, hloop]
  · simp [ht, tfConfigValues, List.filterMap_append, hloop]

theorem tf_config_exact_witness :
    tfConfigValues (mainRun ⟨Option.some 7, Option.some ("h1:2222,h2:2222"), Option.some 1⟩
        (fun _ => []) (fun _ => 0)).1 =
      [clusterDictDumps (pySplitComma ("h1:2222,h2:2222")) (Option.some 1)] :=
  tf_config_exact _ _ _ _ rfl

/-- Sanity evaluation of the embedded serializer on a concrete host list,
matching the output of the Python standard library byte for byte. -/
lemma clusterDictDumps_example :
    clusterDictDumps [("h1:2222"), ("h2:2222")] (Option.some 1) =
      "\x7b\"cluster\": \x7b\"worker\": [\"h1:2222\", \"h2:2222\"]\x7d, \"task\": \x7b\"type\": \"worker\", \"index\": 1\x7d\x7d" := by
  rfl

/-- Claim C3: on any run where the hosts flag parsed, the tracking session
is opened exactly when the parsed task index is 0, and in that case it
receives exactly the two metadata fields run_id and worker_hosts with the
CLI values; any other task index opens no session and logs no metadata. -/
theorem coordinator_experiment_gating (args : Args) (hostsStr : String)
    (oracle : Nat → List Batch) (accResult : List AccUpd → ℚ)
    (h : args.worker_hosts = Option.some hostsStr) :
    ((Event.expOpen PROJECT_NAME ∈ (mainRun args oracle accResult).1) ↔
      args.task_index = Option.some 0) ∧
    logOthers (mainRun args oracle accResult).1 =
      (if args.task_index = Option.some 0 then
        [(("run_id"), valOfOptInt args.run_id), (("worker_hosts"), Val.str hostsStr)]
      else []) := by
  have hnm := expOpen_not_mem_runEpochs PROJECT_NAME args.task_index oracle accResult
    (List.range EPOCHS) []
  have hlo := logOthers_runEpochs args.task_index oracle accResult (List.range EPOCHS) []
  simp only [logOthers] at hlo
  simp only [mainRun, h]
  by_cases ht : args.task_index = Option.some 0
  · rw [ht] at hnm hlo
    constructor
    · simp [ht, hnm]
    · simp [ht, logOthers, List.filterMap_append, hlo]
  · constructor
    · simp only [if_neg ht]
      simp [ht, hnm]
    · simp only [if_neg ht]
      simp [ht, logOthers, List.filterMap_append, hlo]

theorem coordinator_experiment_gating_witness :
    ((Event.expOpen PROJECT_NAME ∈
        (mainRun ⟨Option.some 5, Option.some ("x,y"), Option.some 0⟩
          (fun _ => []) (fun _ => 0)).1) ↔
      (Option.some (0 : Int) = Option.some 0)) ∧
    logOthers (mainRun ⟨Option.some 5, Option.some ("x,y"), Option.some 0⟩
        (fun _ => []) (fun _ => 0)).1 =
      (if (Option.some (0 : Int)) = Option.some 0 then
        [(("run_id"), valOfOptInt (Option.some 5)), (("worker_hosts"), Val.str ("x,y"))]
      else []) :=
  coordinator_experiment_gating _ _ _ _ rfl

/-- Claim C7: whenever a run finishes without an uncaught exception, the
training loop has printed exactly one per-epoch line for each of exactly 10
epochs — for every argument vector and every oracle, so no input changes
the epoch count, which is the constant `EPOCHS = 10`. -/
theorem fixed_epoch_count (args : Args) (hostsStr : String)
    (oracle : Nat → List Batch) (accResult : List AccUpd → ℚ)
    (h : args.worker_hosts = Option.some hostsStr)
    (hok : (mainRun args oracle accResult).2 = Option.none) :
    countEpochPrints (mainRun args oracle accResult).1 = 10 ∧ EPOCHS = 10 := by
  have h2 : (runEpochs args.task_index oracle accResult (List.range EPOCHS) []).2 =
      Option.none := by
    simpa only [mainRun, h] using hok
  have hc := countEpochPrints_runEpochs args.task_index oracle accResult
    (List.range EPOCHS) [] h2
  refine ⟨?_, rfl⟩
  simp only [countEpochPrints, List.length_range, EPOCHS] at hc
  simp only [mainRun, h]
  by_cases ht : args.task_index = Option.some 0
  · rw [ht] at hc
    simp [ht, countEpochPrints, List.countP_append, List.countP_cons,
      Event.isEpochPrint, hc, EPOCHS]
  · simp [ht, countEpochPrints, List.countP_append, List.countP_cons,
      Event.isEpochPrint, hc, EPOCHS]

theorem fixed_epoch_count_witness :
    countEpochPrints (mainRun ⟨Option.some 1, Option.some ("a"), Option.some 1⟩
        (fun _ => []) (fun _ => 0)).1 = 10 ∧ EPOCHS = 10 :=
  fixed_epoch_count _ _ _ _ rfl rfl

lemma filterMap_trainLossAt_epochEvts (o : Nat → List Batch)
    (a : List AccUpd → ℚ) (i j : Nat) :
    (epochEvts (Option.some 0) o a j).filterMap (trainLossAt i) =
      (if j = i then [epochTotalLoss (o j) / ((o j).length : ℚ)] else []) := by
  by_cases hj : j = i <;> simp [epochEvts, trainLossAt, hj]

lemma filterMap_printAccAt_epochEvts (t : Option Int) (o : Nat → List Batch)
    (a : List AccUpd → ℚ) (i j : Nat) :
    (epochEvts t o a j).filterMap (printAccAt i) =
      (if j = i then [a (epochUpds (o j))] else []) := by
  by_cases ht : t = Option.some 0 <;> by_cases hj : j = i <;>
    simp [epochEvts, printAccAt, trainLossAt, ht, hj]

/-- Claim C4: on the coordinator, every epoch logs exactly one `train_loss`
metric tagged with the index of that epoch, and its value is the sum of the
per-batch losses returned by the training step over that epoch divided by
the number of batches processed in that epoch. -/
theorem train_loss_per_epoch (args : Args) (hostsStr : String)
    (oracle : Nat → List Batch) (accResult : List AccUpd → ℚ)
    (h : args.worker_hosts = Option.some hostsStr)
    (ht : args.task_index = Option.some 0)
    (hne : ∀ j : Nat, oracle j ≠ [])
    (i : Nat) (hi : i < EPOCHS) :
    (mainRun args oracle accResult).1.filterMap (trainLossAt i) =
      [((oracle i).map Batch.loss).sum / ((oracle i).length : ℚ)] := by
  have hok : (runEpochs args.task_index oracle accResult (List.range EPOCHS) []).2 =
      Option.none :=
    runEpochs_ok_of_safe _ _ _ _ (Or.inr (fun j _ => hne j))
  have htr := runEpochs_ok_trace args.task_index oracle accResult (List.range EPOCHS) hok
  rw [ht] at htr
  have hfl : ((List.range EPOCHS).map (fun j =>
      if j = i then [epochTotalLoss (oracle j) / ((oracle j).length : ℚ)] else [])).flatten =
      [epochTotalLoss (oracle i) / ((oracle i).length : ℚ)] :=
    flatten_map_range_ite _ i EPOCHS hi
  simp only [mainRun, h, ht]
  rw [htr, List.filterMap_append, List.filterMap_flatten, List.map_map]
  simp only [Function.comp_def, filterMap_trainLossAt_epochEvts]
  rw [hfl, epochTotalLoss_eq_sum]
  simp [trainLossAt]

theorem train_loss_per_epoch_witness :
    (mainRun ⟨Option.some 1, Option.some ("a"), Option.some 0⟩
        (fun _ => [⟨[1], [[1]], 1⟩]) (fun _ => 0)).1.filterMap (trainLossAt 0) =
      [(([(⟨[1], [[1]], 1⟩ : Batch)]).map Batch.loss).sum /
        ((([(⟨[1], [[1]], 1⟩ : Batch)]).length : ℚ))] :=
  train_loss_per_epoch _ _ _ _ rfl rfl (fun _ => List.cons_ne_nil _ _) 0 (by decide)

/-- Claim C9: when a run finishes cleanly, the accuracy value printed for
each epoch is the metric result of exactly the updates of that epoch, starting
from the empty metric state — the metric is reset after the print of every
epoch, so no epoch sees updates from an earlier one. -/
theorem accuracy_reset_each_epoch (args : Args) (hostsStr : String)
    (oracle : Nat → List Batch) (accResult : List AccUpd → ℚ)
    (h : args.worker_hosts = Option.some hostsStr)
    (hok : (mainRun args oracle accResult).2 = Option.none)
    (i : Nat) (hi : i < EPOCHS) :
    (mainRun args oracle accResult).1.filterMap (printAccAt i) =
      [accResult (epochUpds (oracle i))] := by
  have h2 : (runEpochs args.task_index oracle accResult (List.range EPOCHS) []).2 =
      Option.none := by
    simpa only [mainRun, h] using hok
  have htr := runEpochs_ok_trace args.task_index oracle accResult (List.range EPOCHS) h2
  have hfl : ((List.range EPOCHS).map (fun j =>
      if j = i then [accResult (epochUpds (oracle j))] else [])).flatten =
      [accResult (epochUpds (oracle i))] :=
    flatten_map_range_ite _ i EPOCHS hi
  simp only [mainRun, h]
  rw [htr, List.filterMap_append, List.filterMap_flatten, List.map_map]
  simp only [Function.comp_def, filterMap_printAccAt_epochEvts]
  rw [hfl]
  by_cases ht : args.task_index = Option.some 0 <;> simp [ht, printAccAt]

theorem accuracy_reset_each_epoch_witness :
    (mainRun ⟨Option.some 1, Option.some ("a"), Option.some 1⟩
        (fun _ => []) (fun _ => 0)).1.filterMap (printAccAt 2) = [(0 : ℚ)] :=
  accuracy_reset_each_epoch ⟨Option.some 1, Option.some ("a"), Option.some 1⟩ ("a")
    (fun _ => []) (fun _ => 0) rfl rfl 2 (by decide)

lemma flatten_map_singleton {α β : Type} (f : α → β) (l : List α) :
    ((l.map (fun x => [f x])).flatten) = l.map f := by
  induction l with
  | nil => simp
  | cons x rest ih => simp [ih]

lemma residue_epochEvts (t : Option Int) (o : Nat → List Batch)
    (a : List AccUpd → ℚ) (i : Nat) :
    (epochEvts t o a i).filter keepsNonExperiment =
      [Event.printAcc i (a (epochUpds (o i)))] := by
  by_cases ht : t = Option.some 0 <;> simp [epochEvts, keepsNonExperiment, ht]

lemma residue_runEpochs_ok (t : Option Int) (o : Nat → List Batch)
    (a : List AccUpd → ℚ) (l : List Nat)
    (hok : (runEpochs t o a l []).2 = Option.none) :
    residue (runEpochs t o a l []).1 =
      l.map (fun i => Event.printAcc i (a (epochUpds (o i)))) := by
  rw [residue, runEpochs_ok_trace t o a l hok, List.filter_flatten, List.map_map]
  simp only [Function.comp_def, residue_epochEvts]
  exact flatten_map_singleton _ l

/-- Claim C2 counterexample: two runs that differ only in the run-id flag
(1 versus 2, with identical worker hosts, task index 0, and identical
framework behaviour) produce different observable outputs even after the
cluster-descriptor write is removed: the coordinator logs the differing
run-id as experiment metadata. -/
theorem flags_influence_counterexample :
    nonDescriptor (runProgram ⟨Option.some 1, Option.some ("a"), Option.some 0⟩
        (fun _ => [⟨[1], [[1]], 1⟩]) (fun _ => 0)).1 ≠
      nonDescriptor (runProgram ⟨Option.some 2, Option.some ("a"), Option.some 0⟩
        (fun _ => [⟨[1], [[1]], 1⟩]) (fun _ => 0)).1 := by
  intro hcon
  exact absurd
    (congrArg (List.countP (fun e => decide (e = Event.logOther ("run_id") (Val.int 1)))) hcon)
    (by decide)

/-- Claim C2 as amended: the three CLI flags influence only the cluster
descriptor and the experiment-tracking side channel (whether the session
opens, its two metadata fields, and the per-epoch metric logging): for any
two runs that parse a hosts string and whose epochs are nonempty, differing
only in the flag values, the observables outside the descriptor write and
the tracking events — the RPC-mode environment write and the per-epoch
accuracy prints — are identical, and neither run ends in an uncaught
error. -/
theorem flags_influence_scoped (a1 a2 : Args) (h1s h2s : String)
    (oracle : Nat → List Batch) (accResult : List AccUpd → ℚ)
    (h1 : a1.worker_hosts = Option.some h1s)
    (h2 : a2.worker_hosts = Option.some h2s)
    (hne : ∀ j : Nat, oracle j ≠ []) :
    residue (runProgram a1 oracle accResult).1 =
      residue (runProgram a2 oracle accResult).1 ∧
    (runProgram a1 oracle accResult).2 = Option.none ∧
    (runProgram a2 oracle accResult).2 = Option.none := by
  have key : ∀ (ar : Args) (hs : String), ar.worker_hosts = Option.some hs →
      residue (runProgram ar oracle accResult).1 =
        Event.envSet ("GRPC_FAIL_FAST") ("use_caller") ::
          (List.range EPOCHS).map
            (fun i => Event.printAcc i (accResult (epochUpds (oracle i)))) ∧
      (runProgram ar oracle accResult).2 = Option.none := by
    intro ar hs hh
    have hok : (runEpochs ar.task_index oracle accResult (List.range EPOCHS) []).2 =
        Option.none :=
      runEpochs_ok_of_safe _ _ _ _ (Or.inr (fun j _ => hne j))
    have hres := residue_runEpochs_ok ar.task_index oracle accResult (List.range EPOCHS) hok
    constructor
    · simp only [runProgram, mainRun, hh]
      simp only [residue] at hres
      by_cases ht : ar.task_index = Option.some 0
      · rw [ht] at hres
        simp [residue, ht, keepsNonExperiment, List.filter_append, hres]
      · simp [residue, ht, keepsNonExperiment, List.filter_append, hres]
    · simp only [runProgram, mainRun, hh]
      exact hok
  obtain ⟨r1, e1⟩ := key a1 h1s h1
  obtain ⟨r2, e2⟩ := key a2 h2s h2
  exact ⟨r1.trans r2.symm, e1, e2⟩

theorem flags_influence_scoped_witness :
    residue (runProgram ⟨Option.some 1, Option.some ("a"), Option.some 0⟩
        (fun _ => [⟨[1], [[1]], 1⟩]) (fun _ => 0)).1 =
      residue (runProgram ⟨Option.some 2, Option.some ("b,c"), Option.some 5⟩
        (fun _ => [⟨[1], [[1]], 1⟩]) (fun _ => 0)).1 ∧
    (runProgram ⟨Option.some 1, Option.some ("a"), Option.some 0⟩
        (fun _ => [⟨[1], [[1]], 1⟩]) (fun _ => 0)).2 = Option.none ∧
    (runProgram ⟨Option.some 2, Option.some ("b,c"), Option.some 5⟩
        (fun _ => [⟨[1], [[1]], 1⟩]) (fun _ => 0)).2 = Option.none :=
  flags_influence_scoped ⟨Option.some 1, Option.some ("a"), Option.some 0⟩
    ⟨Option.some 2, Option.some ("b,c"), Option.some 5⟩ ("a") ("b,c")
    (fun _ => [⟨[1], [[1]], 1⟩]) (fun _ => 0) rfl rfl
    (fun _ => List.cons_ne_nil _ _)
